import Mathlib

/-!
Verification development for the HealthLLM ingestion pipeline
(data_handling/get_data.py, data_handling/embedding_functions.py,
data_handling/upload_to_vectordb.py), shallowly embedded in Lean.

Python exceptions are modelled by an explicit error type in `Except`;
Python values that can be `None`, strings, integers or dictionaries are
modelled by a small dynamic-value type; the external collaborators
(the lxml parser, the LangChain text splitter and `Document` class, the
embedding provider, the Qdrant client) are modelled at their interfaces
as the specification describes them, while every function of the
repository itself is translated statement by statement from the source.
-/

namespace HealthLLM

/-- The Python exception classes that appear in the ingestion pipeline
(raise sites and except clauses of the embedded functions). -/
inductive PyErr where
  | xmlSyntaxError
  | unicodeDecodeError
  | osError
  | typeError (msg : String)
  | valueError (msg : String)
  | keyError (msg : String)
deriving DecidableEq, Repr

/-- Class test used by the except clauses that catch `etree.XMLSyntaxError`. -/
def PyErr.isXmlSyntaxError : PyErr → Bool
  | .xmlSyntaxError => true
  | _ => false

/-- Class test used by the except clauses that catch `UnicodeDecodeError`. -/
def PyErr.isUnicodeDecodeError : PyErr → Bool
  | .unicodeDecodeError => true
  | _ => false

/-- Class test used by the except clauses that catch `ValueError`. -/
def PyErr.isValueError : PyErr → Bool
  | .valueError _ => true
  | _ => false

/-- Dynamic Python values appearing as dictionary entries and arguments:
`None`, strings and integers (dictionaries are kept apart, see `PyArg`). -/
inductive PyVal where
  | none
  | str (s : String)
  | int (n : Int)
deriving DecidableEq, Repr

/-- A Python dictionary with string keys, as an association list
(first occurrence of a key wins on lookup, as in the translation of
dictionary access below). -/
abbrev PyDict := List (String × PyVal)

/-- A Python argument that may be a plain value or a dictionary
(needed where the code distinguishes mappings from other values). -/
inductive PyArg where
  | val (v : PyVal)
  | dict (m : PyDict)
deriving DecidableEq, Repr

/-- Python truthiness of a `PyVal` (`bool(x)`). -/
def PyVal.truthy : PyVal → Bool
  | .none => false
  | .str s => s ≠ ""
  | .int n => n ≠ 0

/-- Python truthiness of a `PyArg`. -/
def PyArg.truthy : PyArg → Bool
  | .val v => v.truthy
  | .dict m => m ≠ []

/-- Whether the argument is a mapping. -/
def PyArg.isDict : PyArg → Bool
  | .val _ => false
  | .dict _ => true

/-- Python `str(x)` for the values that reach f-string interpolation in
the embedded code (`str(None) = "None"`). -/
def PyVal.toStr : PyVal → String
  | .none => "None"
  | .str s => s
  | .int n => toString n

/-- `d[k] = v` and `{**d, k: v}` on one key: replace the first binding of
`k`, or append a fresh binding; insertion order is preserved as in a
Python dictionary. -/
def dictSet : PyDict → String → PyVal → PyDict
  | [], k, v => [(k, v)]
  | (k0, v0) :: rest, k, v =>
    if k0 = k then (k, v) :: rest else (k0, v0) :: dictSet rest k v

/-- `d.get(k)` with default `None`. -/
def dictGet (m : PyDict) (k : String) : PyVal :=
  (List.lookup k m).getD PyVal.none

/-- A LangChain `Document`: one chunk of text plus its metadata mapping. -/
structure Doc where
  page_content : String
  metadata : PyDict
deriving DecidableEq, Repr

/-- The failure modes of `lxml.etree.parse` on an archive member, exactly
the classes caught by `extract_from_xml` (`IOError` is an alias of
`OSError`, and `PermissionError` its subclass). -/
inductive ParseFail where
  | xmlSyntax
  | os
  | permission
deriving DecidableEq, Repr

/-- The structured content of one successfully parsed PMC XML document:
the `//body//text()` nodes and the five metadata queries, each
optional (`findtext` returns `None` when the element is missing). -/
structure ParsedXml where
  body : List String
  title : Option String
  journal : Option String
  year : Option String
  doi : Option String
  pmid : Option String
deriving DecidableEq, Repr

/-- The bytes of one archive member as seen by the XML parser: either
they parse to a `ParsedXml` or parsing fails with one of the caught
classes. -/
abbrev XmlSource := Except ParseFail ParsedXml

instance : DecidableEq XmlSource := fun
  | .ok a, .ok b =>
    if h : a = b then .isTrue (by simp [h]) else .isFalse (by simp [h])
  | .ok _, .error _ => .isFalse (by simp)
  | .error _, .ok _ => .isFalse (by simp)
  | .error a, .error b =>
    if h : a = b then .isTrue (by simp [h]) else .isFalse (by simp [h])

/-- The type of a tar archive member (`TarInfo` type flags). -/
inductive MemberKind where
  | file
  | dir
  | sym
  | lnk
  | other
deriving DecidableEq, Repr

/-- One tar archive member: its name, its type flag and its content. -/
structure TarMember where
  name : String
  kind : MemberKind
  content : XmlSource
deriving DecidableEq, Repr

/-! ### String primitives

The embedding works on the character lists underneath `String`, with
structurally recursive helpers, so that every definition evaluates by
kernel reduction on concrete inputs. -/

/-- `len(s)` (Python counts code points, as `String.data` does). -/
def pyLen (s : String) : ℕ := s.data.length

/-- Whether `pre` is a prefix of `s` (`str.startswith`). -/
def strStartsWith (s pre : String) : Bool :=
  List.isPrefixOf pre.data s.data

/-- Whether `suf` is a suffix of `s` (`str.endswith`). -/
def strEndsWith (s suf : String) : Bool :=
  List.isPrefixOf suf.data.reverse s.data.reverse

/-- ASCII lowercasing of one character (`str.lower`; the member names
handled by the pipeline are ASCII). -/
def asciiLower (c : Char) : Char :=
  if 65 ≤ c.toNat ∧ c.toNat ≤ 90 then Char.ofNat (c.toNat + 32) else c

/-- `str.lower()` on ASCII strings. -/
def strLower (s : String) : String :=
  String.mk (s.data.map asciiLower)

/-- Strip leading and trailing whitespace from a character list. -/
def stripChars (l : List Char) : List Char :=
  ((l.dropWhile Char.isWhitespace).reverse.dropWhile Char.isWhitespace).reverse

/-- `str.strip()`. -/
def pyStrip (s : String) : String :=
  String.mk (stripChars s.data)

/-- Split a character list on whitespace into the non-empty words
(accumulator holds the current word reversed). -/
def splitWsAux : List Char → List Char → List String
  | [], cur => if cur = [] then [] else [String.mk cur.reverse]
  | c :: cs, cur =>
    if c.isWhitespace then
      if cur = [] then splitWsAux cs []
      else String.mk cur.reverse :: splitWsAux cs []
    else splitWsAux cs (c :: cur)

/-- Split a character list on the path separator, keeping empty
components (as `str.split("/")` does). -/
def splitSlashAux : List Char → List Char → List String
  | [], cur => [String.mk cur.reverse]
  | c :: cs, cur =>
    if c = '/' then String.mk cur.reverse :: splitSlashAux cs []
    else splitSlashAux cs (c :: cur)

/-- Join strings with a separator (`sep.join`). -/
def joinSep (sep : String) : List String → String
  | [] => ""
  | [x] => x
  | x :: xs => x ++ sep ++ joinSep sep xs

/-- Whether `sub` occurs as a contiguous run of `l` (`sub in s`). -/
def listContains (sub : List Char) : List Char → Bool
  | [] => List.isPrefixOf sub []
  | c :: cs => List.isPrefixOf sub (c :: cs) || listContains sub cs

/-- Whether `sub` is a substring of `s` (`sub in s`). -/
def strContains (s sub : String) : Bool :=
  listContains sub.data s.data

/-! ### Path model (POSIX os.path, as used by safe_extract_member) -/

/-- Component normalization for `os.path.abspath`: drop empty and `.`
components, let `..` pop the previous component (staying at the root
when there is none).  The accumulator holds the kept components in
reverse order. -/
def normComponents : List String → List String → List String
  | acc, [] => acc.reverse
  | acc, c :: cs =>
    if c = "" ∨ c = "." then normComponents acc cs
    else if c = ".." then normComponents (acc.drop 1) cs
    else normComponents (c :: acc) cs

/-- `os.path.abspath` for an absolute POSIX path: split on the
separator, normalize the components and rebuild.  The model is applied
to absolute inputs (the joined base directory is absolute in every
theorem and witness below). -/
def abspath (p : String) : String :=
  "/" ++ joinSep "/" (normComponents [] (splitSlashAux p.data []))

/-- `os.path.join(base, name)` for the shapes the gate meets: an
absolute `name` replaces the base, any other is appended after one
separator. -/
def pathJoin (base name : String) : String :=
  if strStartsWith name "/" then name else base ++ "/" ++ name

/-- The test `member.name.lower().endswith(".xml")`. -/
def endsWithXmlLower (name : String) : Bool :=
  strEndsWith (strLower name) ".xml"

/-- The path-safety test of `safe_extract_member`: the member name,
joined to the base directory and normalized, does not start with the
normalized base directory followed by the separator. -/
def resolvesOutside (base_dir name : String) : Bool :=
  ! strStartsWith (abspath (pathJoin base_dir name)) (abspath base_dir ++ "/")

/-- Result of the gate: the returned stream (the member content, when
one is opened) and the warnings logged on the way. -/
structure GateRes where
  stream : Option XmlSource
  warnings : List String
deriving DecidableEq, Repr

/-- The warning logged for a link member. -/
def symlinkWarning (name : String) : String :=
  "Skipping symbolic link in tar: " ++ name

/-- The message of the unsafe-path `ValueError`. -/
def unsafeMsg (name : String) : String :=
  "Unsafe file path detected: " ++ name

/-- `tar.extractfile(member)`: a readable stream for regular files,
`None` for special members (directories and links are filtered before
this call in the gate; extractfile of the remaining special kinds
yields `None`). -/
def tarExtractfile (m : TarMember) : Option XmlSource :=
  if m.kind = .file then some m.content else none

/-- `safe_extract_member` from `data_handling/get_data.py`: skip
non-`.xml` names, directories and links (warning the latter), raise a
`ValueError` for regular files whose resolved path leaves the base
directory, and otherwise open the member. -/
def safe_extract_member (m : TarMember) (base_dir : String) :
    Except PyErr GateRes :=
  if ¬ endsWithXmlLower m.name then .ok ⟨none, []⟩
  else if m.kind = .dir then .ok ⟨none, []⟩
  else if m.kind = .sym ∨ m.kind = .lnk then
    .ok ⟨none, [symlinkWarning m.name]⟩
  else if resolvesOutside base_dir m.name ∧ m.kind = .file then
    .error (.valueError (unsafeMsg m.name))
  else .ok ⟨tarExtractfile m, []⟩

/-! ### DocumentExtractor (extract_from_xml) -/

/-- The error class raised by `etree.parse` for each failure mode. -/
def ParseFail.toPyErr : ParseFail → PyErr
  | .xmlSyntax => .xmlSyntaxError
  | .os => .osError
  | .permission => .osError

/-- Whether `except (etree.XMLSyntaxError, OSError, IOError,
PermissionError)` catches the error (`IOError` is an alias of `OSError`
and `PermissionError` its subclass). -/
def caughtByExtract : PyErr → Bool
  | .xmlSyntaxError => true
  | .osError => true
  | _ => false

/-- The metadata dictionary built by `extract_from_xml` on a successful
parse: all six keys are always present, missing fields bound to `None`. -/
def metadataOf (d : ParsedXml) (file_name : String) : PyDict :=
  [ ("file", .str file_name),
    ("title", d.title.elim PyVal.none PyVal.str),
    ("journal", d.journal.elim PyVal.none PyVal.str),
    ("year", d.year.elim PyVal.none PyVal.str),
    ("doi", d.doi.elim PyVal.none PyVal.str),
    ("pmid", d.pmid.elim PyVal.none PyVal.str) ]

/-- The extracted text: `' '.join(tree.xpath('//body//text()')).strip()`. -/
def bodyTextOf (d : ParsedXml) : String :=
  pyStrip (joinSep " " d.body)

/-- `type(e).__name__` for each parse-failure class. -/
def parseFailClass : ParseFail → String
  | .xmlSyntax => "XMLSyntaxError"
  | .os => "OSError"
  | .permission => "PermissionError"

/-- The message logged by the except branch of `extract_from_xml`:
`"XML parsing error in %s: %s - %s" % (xml_source, type(e).__name__, e)`.
The first `%s` renders the `xml_source` argument itself — not the
`file_name` display name.  The exception's own text (the trailing `%s`)
carries no member name either and is not modelled. -/
def extract_log (src_repr : String) (e : ParseFail) : String :=
  "XML parsing error in " ++ src_repr ++ (": " ++ parseFailClass e)

/-- The `%s` rendering of the `BytesIO(file_content)` stream that
`process_xml_member` hands to `extract_from_xml`: a CPython object
repr such as `<_io.BytesIO object at 0x...>`.  The address is not
modelled; what matters is that the repr never contains the member's
display name. -/
def bytesIORepr : String := "<_io.BytesIO object>"

/-- `extract_from_xml` from `data_handling/get_data.py`: parse the
source, join and trim the body text and collect the six metadata
fields; any caught parse failure is logged — with the `xml_source`
argument, whose `%s` rendering is `src_repr`, not with `file_name` —
and turned into `(None, {})`.  The second component of the result is
the list of emitted log messages. -/
def extract_from_xml (src_repr : String) (xml_source : XmlSource)
    (file_name : String) :
    Except PyErr ((Option String × PyDict) × List String) :=
  match xml_source with
  | .ok d => .ok ((some (bodyTextOf d), metadataOf d file_name), [])
  | .error e =>
    if caughtByExtract e.toPyErr then
      .ok ((none, []), [extract_log src_repr e])
    else .error e.toPyErr

/-! ### TextChunker (text_chunker)

The splitting itself is delegated to the LangChain
`RecursiveCharacterTextSplitter` and `Document` collaborators, which are
not part of this repository; they are modelled from the spec below and
the repository functions are translated from the source on top of them. -/

/-- The whitespace-separated words of a string. -/
def wordsOf (s : String) : List String :=
  splitWsAux s.data []

/-- Greedy packing of words into chunks of at most `n` characters
(a word longer than `n` becomes its own chunk). -/
def packWords (n : ℕ) : List String → String → List String
  | [], cur => if cur = "" then [] else [cur]
  | w :: ws, cur =>
    let cand := if cur = "" then w else cur ++ " " ++ w
    if pyLen cand ≤ n then packWords n ws cand
    else if cur = "" then w :: packWords n ws ""
    else cur :: packWords n ws w

/-- Modelled from the spec: the `RecursiveCharacterTextSplitter.split_text`
collaborator (LangChain, not in this repository) splits text at natural
boundaries into bounded chunks, and empty or whitespace-only text yields
no chunks.  The model packs whitespace-separated words greedily up to the
chunk size; the configured overlap and the finer boundary preferences are
not modelled, as no claim depends on them. -/
def split_text (chunk_size : ℕ) (s : String) : List String :=
  packWords chunk_size (wordsOf s) ""

/-- The message of the `TypeError` raised when `split_text` receives a
non-string. -/
def splitTypeMsg : String := "expected string or bytes-like object"

/-- Modelled from the spec: calling the splitter on a non-string raises a
`TypeError` synchronously (a programming error, not a data error). -/
def split_text_py (chunk_size : ℕ) (text : PyArg) :
    Except PyErr (List String) :=
  match text with
  | .val (.str s) => .ok (split_text chunk_size s)
  | _ => .error (.typeError splitTypeMsg)

/-- The message of the type error raised by the `Document` collaborator
on a non-mapping metadata argument. -/
def docMetadataMsg : String := "metadata must be a mapping"

/-- Modelled from the spec: the LangChain `Document` constructor accepts a
content string and a metadata mapping, and raises a type error when the
metadata argument is not a mapping. -/
def document_new (content : String) (metadata : PyArg) : Except PyErr Doc :=
  match metadata with
  | .dict m => .ok ⟨content, m⟩
  | .val _ => .error (.typeError docMetadataMsg)

/-- The loop `for chunk in chunks: docs.append(Document(...))`. -/
def docsLoop (metadata : PyArg) : List String → Except PyErr (List Doc)
  | [] => .ok []
  | c :: cs => do
    let d ← document_new c metadata
    let ds ← docsLoop metadata cs
    .ok (d :: ds)

/-- `text_chunker` from `data_handling/get_data.py`: split the full text
with a `RecursiveCharacterTextSplitter(chunk_size=1000, chunk_overlap=100)`
and wrap each chunk in a `Document` carrying `metadata or {}`. -/
def text_chunker (full_text : PyArg) (metadata : PyArg) :
    Except PyErr (List Doc) := do
  let chunks ← split_text_py 1000 full_text
  docsLoop (if metadata.truthy then metadata else .dict []) chunks

/-! ### EmbeddingBatcher (embed_chunks, embed_docs) -/

/-- The message of the `ValueError` raised by `embed_chunks` for the
vector at index `i`. -/
def sizeMsg (i expected got : ℕ) : String :=
  "Invalid vector size for doc #" ++ toString i ++ ": expected " ++
    toString expected ++ ", got " ++ toString got ++ "."

/-- The validation loop of `embed_chunks`: raise a `ValueError` naming
the first index whose vector length differs from the configured
embedding dimension. -/
def checkSizes (dim : ℕ) : ℕ → List (List ℚ) → Except PyErr Unit
  | _, [] => .ok ()
  | i, v :: vs =>
    if v.length ≠ dim then .error (.valueError (sizeMsg i dim v.length))
    else checkSizes dim (i + 1) vs

/-- `embed_chunks` from `data_handling/embedding_functions.py`: call the
embedding provider on the whole batch and validate every returned
vector length against the configured dimension.  The provider
(`embedding_function.embed_documents`, an external collaborator) is
modelled from the spec as a per-string embedding applied positionally;
a provider-level failure would be logged and re-raised unchanged, which
no claim below depends on. -/
def embed_chunks (dim : ℕ) (provider : String → List ℚ)
    (chunks : List String) : Except PyErr (List (List ℚ)) :=
  match checkSizes dim 0 (chunks.map provider) with
  | .error e => .error e
  | .ok _ => .ok (chunks.map provider)

/-! ### VectorUpsertPipeline (build_point, upload_docs_to_qdrant) -/

/-- One Qdrant point.  `uuid.uuid5(uuid.NAMESPACE_DNS, key)` is a
deterministic pure function of `key`, so the model uses the key string
itself as the id: identically derived ids are equal exactly when the
real uuids are. -/
structure Point where
  id : String
  vector : List ℚ
  payload : PyDict
deriving DecidableEq, Repr

/-- The uuid5 key `f"{base_id}_chunk_{i}"`. -/
def point_id (base_id : PyVal) (i : ℕ) : String :=
  base_id.toStr ++ "_chunk_" ++ toString i

/-- The message of the `ValueError` raised by `build_point`. -/
def buildSizeMsg (expected got : ℕ) : String :=
  "Invalid vector size: expected " ++ toString expected ++ ", got " ++
    toString got

/-- The message of the `KeyError` raised by `build_point` for chunk `i`. -/
def titleMsg (i : ℕ) : String :=
  "Missing title in metadata for chunk #" ++ toString i

/-- The payload `{**doc.metadata, "chunk_index": i, "text":
doc.page_content}` built by `build_point`. -/
def point_payload (doc : Doc) (i : ℕ) : PyDict :=
  dictSet (dictSet doc.metadata "chunk_index" (.int i))
    "text" (.str doc.page_content)

/-- `build_point` from `data_handling/upload_to_vectordb.py`: validate
the vector length, build the payload `{**doc.metadata, "chunk_index": i,
"text": doc.page_content}`, require a truthy title and derive the
deterministic point id. -/
def build_point (dim : ℕ) (doc : Doc) (embedding : List ℚ)
    (base_id : PyVal) (i : ℕ) : Except PyErr Point :=
  if embedding.length ≠ dim then
    .error (.valueError (buildSizeMsg dim embedding.length))
  else if ¬ (dictGet (point_payload doc i) "title").truthy then
    .error (.keyError (titleMsg i))
  else .ok ⟨point_id base_id i, embedding, point_payload doc i⟩

/-- The per-chunk loop of `upload_docs_to_qdrant`: `embeddings[i]` (an
`IndexError` when out of range) and `build_point` failures are caught
individually (`IndexError, KeyError, ValueError, TypeError` warn,
`AttributeError, RuntimeError` log an error), the chunk is dropped and
the loop continues. -/
def buildLoop (dim : ℕ) (base_id : PyVal) (embeddings : List (List ℚ)) :
    ℕ → List Doc → List Point
  | _, [] => []
  | i, doc :: ds =>
    match embeddings.get? i with
    | none => buildLoop dim base_id embeddings (i + 1) ds
    | some e =>
      match build_point dim doc e base_id i with
      | .ok p => p :: buildLoop dim base_id embeddings (i + 1) ds
      | .error _ => buildLoop dim base_id embeddings (i + 1) ds

/-- The batches `points[i:i+batch_size]` (`go` flushes the current batch
each time it reaches the batch size). -/
def batchedGo (bs : ℕ) : List Point → List Point → List (List Point)
  | [], cur => if cur = [] then [] else [cur.reverse]
  | p :: ps, cur =>
    let cur2 := p :: cur
    if cur2.length = bs then cur2.reverse :: batchedGo bs ps []
    else batchedGo bs ps cur2

/-- Grouping of the built points into upsert batches of `bs`. -/
def batched (bs : ℕ) (points : List Point) : List (List Point) :=
  batchedGo bs points []

/-- `upload_docs_to_qdrant` from `data_handling/upload_to_vectordb.py`:
build one point per chunk with per-chunk failure isolation, then write
the surviving points in batches (an empty point set logs and returns).
`range(0, len(points), 0)` raises a `ValueError`, reached only when
points survived; the Qdrant client write itself is an external
collaborator modelled as succeeding, so the batch-write `RuntimeError`
and `ConnectionError` re-raises are unreachable in the model.  The
value returned to the verification is the list of upsert batches. -/
def upload_docs_to_qdrant (dim bs : ℕ) (docs : List Doc)
    (embeddings : List (List ℚ)) (base_id : PyVal) :
    Except PyErr (List (List Point)) :=
  if buildLoop dim base_id embeddings 0 docs = [] then .ok []
  else if bs = 0 then .error (.valueError "range() arg 3 must not be zero")
  else .ok (batched bs (buildLoop dim base_id embeddings 0 docs))

/-- The observable outcome of one `embed_docs` call that reached the
upload: the documents, the embeddings aligned with them by position,
the base id and the upsert batches. -/
structure UploadCall where
  docs : List Doc
  embeddings : List (List ℚ)
  base_id : PyVal
  batches : List (List Point)
deriving DecidableEq, Repr

/-- The points of an upload call, in upsert order. -/
def UploadCall.points (r : UploadCall) : List Point :=
  r.batches.flatten

/-- The message of the `KeyError` re-raised by `embed_docs`. -/
def missingPmidMsg : String :=
  "First document is missing pmid in its metadata."

/-- `embed_docs` from `data_handling/embedding_functions.py`: return
early on an empty document list, strip and drop empty chunk contents,
embed the remaining chunks, read `docs[0].metadata["pmid"]`
(re-raising a `KeyError` when the key is absent) and upload the
original document list with the computed embeddings. -/
def embed_docs (dim bs : ℕ) (provider : String → List ℚ)
    (docs : List Doc) : Except PyErr (Option UploadCall) :=
  match docs with
  | [] => .ok none
  | d0 :: rest =>
    match embed_chunks dim provider ((d0 :: rest).filterMap (fun d =>
      if pyStrip d.page_content = "" then none
      else some (pyStrip d.page_content))) with
    | .error e => .error e
    | .ok embeddings =>
      match List.lookup "pmid" d0.metadata with
      | none => .error (.keyError missingPmidMsg)
      | some base_id =>
        match upload_docs_to_qdrant dim bs (d0 :: rest) embeddings base_id with
        | .error e => .error e
        | .ok batches => .ok (some ⟨d0 :: rest, embeddings, base_id, batches⟩)

/-! ### IngestionOrchestrator (process_xml_member, iterate_tar) -/

/-- The text returned by extraction, as the argument passed on to
`text_chunker`. -/
def optTextArg : Option String → PyArg
  | some s => .val (.str s)
  | none => .val .none

/-- `process_xml_member` from `data_handling/get_data.py`: read and
parse the member (the stream handed to extraction is
`BytesIO(file_content)`, rendered as `bytesIORepr` in any extraction
log), chunk the text, embed and upload, catching
`etree.XMLSyntaxError`, `UnicodeDecodeError` and `ValueError` (each
logged, the member skipped); any other exception escapes.  The
`finally: fileobj.close()` resource handling is not modelled. -/
def process_xml_member (dim bs : ℕ) (provider : String → List ℚ)
    (content : XmlSource) (member_name : String) :
    Except PyErr (Option UploadCall) :=
  let body : Except PyErr (Option UploadCall) := do
    let tm ← extract_from_xml bytesIORepr content member_name
    let chunks ← text_chunker (optTextArg tm.1.1) (.dict tm.1.2)
    embed_docs dim bs provider chunks
  match body with
  | .ok r => .ok r
  | .error e =>
    if e.isXmlSyntaxError || e.isUnicodeDecodeError || e.isValueError then
      .ok none
    else .error e

/-- The per-member loop of `iterate_tar` from
`data_handling/get_data.py` (the archive is already open: the
surrounding `tarfile.open` failure handling is the separate fatal
class).  The gate call is guarded by `except ValueError` with
`continue`; nothing guards `process_xml_member` itself, so an exception
escaping it aborts the walk.  The result lists, per processed member,
its name and the outcome of its processing. -/
def iterate_members (dim bs : ℕ) (provider : String → List ℚ)
    (base_dir : String) :
    List TarMember → Except PyErr (List (String × Option UploadCall))
  | [] => .ok []
  | m :: rest =>
    match safe_extract_member m base_dir with
    | .error e =>
      if e.isValueError then iterate_members dim bs provider base_dir rest
      else .error e
    | .ok res =>
      match res.stream with
      | none => iterate_members dim bs provider base_dir rest
      | some content => do
        let r ← process_xml_member dim bs provider content m.name
        let rs ← iterate_members dim bs provider base_dir rest
        .ok ((m.name, r) :: rs)

/-! ### CheckpointStore (save_checkpoint / load_checkpoint)

The checkpoint functions `save_checkpoint` and `load_checkpoint` of
`data_handling.get_data` are exercised by `tests/test_checkpointing.py`
but their definitions are not among the sources; they are modelled from
the spec. -/

/-- The durable checkpoint file: absent on a first run, otherwise a JSON
array of member names. -/
abbrev CheckpointFile := Option (List String)

/-- Modelled from the spec: `save_checkpoint` (missing from the sources;
only its tests are present) overwrites the durable representation of the
checkpoint wholesale with the given set of member names, serialized as a
JSON array of strings. -/
def save_checkpoint (processed_files : Finset String)
    (_previous : CheckpointFile) : CheckpointFile :=
  some (processed_files.sort (· ≤ ·))

/-- Modelled from the spec: `load_checkpoint` (missing from the sources;
only its tests are present) returns the previously saved name set, or the
empty set when no checkpoint file exists yet. -/
def load_checkpoint (fs : CheckpointFile) : Finset String :=
  match fs with
  | some names => names.toFinset
  | none => ∅

/-! ### ArchiveMemberGate, checkpointed variant

The variant of `safe_extract_member` that receives the set of
already-processed member names (the one exercised by
`tests/test_extraction.py` and described by spec section 4.1) is not
among the sources, which hold only the archive-to-disk variant above;
it is modelled from the spec. -/

/-- Outcome of the checkpointed gate: the opened stream, if any, and
whether the link warning was emitted. -/
structure SpecGateRes where
  stream : Option XmlSource
  warned : Bool
deriving DecidableEq, Repr

/-- Modelled from the spec: the checkpointed `safe_extract_member`
(missing from the sources; only its tests are present) decides in
order: (a) directories skip; (b) names without the document extension
skip; (c) symbolic or hard links skip with a warning; (d) names already
in the processed set skip; (e) otherwise the member content stream is
opened and returned. -/
def safe_extract_member_ckpt (m : TarMember) (processed : List String) :
    SpecGateRes :=
  if m.kind = .dir then ⟨none, false⟩
  else if ¬ endsWithXmlLower m.name then ⟨none, false⟩
  else if m.kind = .sym ∨ m.kind = .lnk then ⟨none, true⟩
  else if m.name ∈ processed then ⟨none, false⟩
  else ⟨tarExtractfile m, false⟩

/-! ### Helper lemmas -/

lemma strData_append (a b : String) : (a ++ b).data = a.data ++ b.data := by
  cases a
  cases b
  rfl

lemma isPrefixOf_self_append (sub suf : List Char) :
    List.isPrefixOf sub (sub ++ suf) = true := by
  induction sub with
  | nil => cases suf <;> rfl
  | cons a as ih => simp [List.isPrefixOf, ih]

lemma listContains_self_append (sub suf : List Char) :
    listContains sub (sub ++ suf) = true := by
  have hpre := isPrefixOf_self_append sub suf
  rcases h : sub ++ suf with _ | ⟨c, cs⟩
  · rw [h] at hpre
    show List.isPrefixOf sub [] = true
    exact hpre
  · rw [h] at hpre
    show (List.isPrefixOf sub (c :: cs) || listContains sub cs) = true
    rw [hpre]
    rfl

lemma listContains_append (sub pre suf : List Char) :
    listContains sub (pre ++ (sub ++ suf)) = true := by
  induction pre with
  | nil => simpa using listContains_self_append sub suf
  | cons c cs ih =>
    show (List.isPrefixOf sub (c :: (cs ++ (sub ++ suf)))
      || listContains sub (cs ++ (sub ++ suf))) = true
    rw [ih]
    simp

lemma strContains_parts (pre s suf : String) :
    strContains (pre ++ s ++ suf) s = true := by
  unfold strContains
  rw [strData_append, strData_append, List.append_assoc]
  exact listContains_append s.data pre.data suf.data

lemma lookup_dictSet_self (m : PyDict) (k : String) (v : PyVal) :
    List.lookup k (dictSet m k v) = some v := by
  induction m with
  | nil => simp [dictSet, List.lookup]
  | cons kv rest ih =>
    by_cases h : kv.1 = k
    · simp [dictSet, h, List.lookup]
    · have hbeq : (k == kv.1) = false := beq_eq_false_iff_ne.mpr (Ne.symm h)
      simp [dictSet, h, List.lookup, hbeq, ih]

lemma lookup_dictSet_ne (m : PyDict) {k k2 : String} (v : PyVal)
    (h : k ≠ k2) : List.lookup k (dictSet m k2 v) = List.lookup k m := by
  have hbeq : (k == k2) = false := beq_eq_false_iff_ne.mpr h
  induction m with
  | nil => simp [dictSet, List.lookup, hbeq]
  | cons kv rest ih =>
    by_cases h2 : kv.1 = k2
    · subst h2
      simp [dictSet, List.lookup, hbeq]
    · simp [dictSet, h2, List.lookup, ih]

lemma checkSizes_ok {dim : ℕ} :
    ∀ {vs : List (List ℚ)} (i : ℕ), (∀ v ∈ vs, v.length = dim) →
      checkSizes dim i vs = .ok () := by
  intro vs
  induction vs with
  | nil => intro i _; rfl
  | cons v rest ih =>
    intro i h
    have hv : v.length = dim := h v (by simp)
    simp [checkSizes, hv, ih (i + 1) (fun w hw => h w (by simp [hw]))]

lemma checkSizes_err {dim : ℕ} :
    ∀ (vs : List (List ℚ)) (i : ℕ), (∃ v ∈ vs, v.length ≠ dim) →
      ∃ j, ∃ hj : j < vs.length, (vs.get ⟨j, hj⟩).length ≠ dim ∧
        checkSizes dim i vs
          = .error (.valueError (sizeMsg (i + j) dim (vs.get ⟨j, hj⟩).length)) := by
  intro vs
  induction vs with
  | nil => intro i h; simp at h
  | cons v rest ih =>
    intro i h
    by_cases hv : v.length = dim
    · have hrest : ∃ w ∈ rest, w.length ≠ dim := by
        rcases h with ⟨w, hw, hlen⟩
        rcases List.mem_cons.mp hw with rfl | hw2
        · exact absurd hv hlen
        · exact ⟨w, hw2, hlen⟩
      rcases ih (i + 1) hrest with ⟨j, hj, hlen, heq⟩
      refine ⟨j + 1, Nat.succ_lt_succ hj, hlen, ?_⟩
      show checkSizes dim i (v :: rest) = _
      rw [show checkSizes dim i (v :: rest)
          = if v.length ≠ dim then
              Except.error (.valueError (sizeMsg i dim v.length))
            else checkSizes dim (i + 1) rest from rfl,
        if_neg (by simp [hv]),
        show i + (j + 1) = i + 1 + j from by omega]
      exact heq
    · exact ⟨0, Nat.succ_pos _, hv, by simp [checkSizes, hv]⟩

lemma embed_chunks_of_dims {dim : ℕ} {provider : String → List ℚ}
    (chunks : List String) (h : ∀ s, (provider s).length = dim) :
    embed_chunks dim provider chunks = .ok (chunks.map provider) := by
  unfold embed_chunks
  rw [checkSizes_ok 0 (by intro v hv; rcases List.mem_map.mp hv with ⟨s, _, rfl⟩; exact h s)]

lemma embed_chunks_ok {dim : ℕ} {provider : String → List ℚ}
    {chunks : List String} {E : List (List ℚ)}
    (h : embed_chunks dim provider chunks = .ok E) :
    E = chunks.map provider := by
  unfold embed_chunks at h
  split at h
  · exact absurd h (by simp)
  · injection h with h2
    exact h2.symm

lemma build_point_ok {dim : ℕ} {doc : Doc} {embedding : List ℚ}
    {base : PyVal} {i : ℕ} {p : Point}
    (h : build_point dim doc embedding base i = .ok p) :
    p.vector = embedding
    ∧ p.payload = point_payload doc i
    ∧ p.id = point_id base i := by
  unfold build_point at h
  split_ifs at h
  injection h with h2
  subst h2
  exact ⟨rfl, rfl, rfl⟩

lemma buildLoop_mem {dim : ℕ} {base : PyVal} {emb : List (List ℚ)} :
    ∀ {ds : List Doc} {i : ℕ} {p : Point}, p ∈ buildLoop dim base emb i ds →
      ∃ j, ∃ hj : j < ds.length, ∃ e, emb.get? (i + j) = some e ∧
        build_point dim (ds.get ⟨j, hj⟩) e base (i + j) = .ok p := by
  intro ds
  induction ds with
  | nil => intro i p hp; simp [buildLoop] at hp
  | cons doc ds ih =>
    intro i p hp
    have step : ∀ (hp2 : p ∈ buildLoop dim base emb (i + 1) ds),
        ∃ j, ∃ hj : j < (doc :: ds).length, ∃ e, emb.get? (i + j) = some e ∧
          build_point dim ((doc :: ds).get ⟨j, hj⟩) e base (i + j) = .ok p := by
      intro hp2
      rcases ih hp2 with ⟨j, hj, e, hget, hbp⟩
      refine ⟨j + 1, by simpa using Nat.succ_lt_succ hj, e, ?_, ?_⟩
      · rw [show i + (j + 1) = i + 1 + j by omega]; exact hget
      · rw [show i + (j + 1) = i + 1 + j by omega]; simpa using hbp
    rw [buildLoop] at hp
    rcases hge : emb.get? i with _ | e
    · simp only [hge] at hp
      exact step hp
    · simp only [hge] at hp
      rcases hbp : build_point dim doc e base i with err | p0
      · simp only [hbp] at hp
        exact step hp
      · simp only [hbp, List.mem_cons] at hp
        rcases hp with rfl | hp2
        · exact ⟨0, Nat.succ_pos _, e, by simpa using hge, by simpa using hbp⟩
        · exact step hp2

lemma batchedGo_flatten (bs : ℕ) :
    ∀ (l cur : List Point), (batchedGo bs l cur).flatten = cur.reverse ++ l := by
  intro l
  induction l with
  | nil =>
    intro cur
    by_cases h : cur = []
    · simp [batchedGo, h]
    · simp [batchedGo, h]
  | cons p ps ih =>
    intro cur
    by_cases h : cur.length + 1 = bs
    · simp [batchedGo, h, ih]
    · simpa [batchedGo, h, List.append_assoc] using ih (p :: cur)

lemma batched_flatten (bs : ℕ) (l : List Point) :
    (batched bs l).flatten = l := by
  simpa using batchedGo_flatten bs l []

lemma upload_ok_flatten {dim bs : ℕ} {docs : List Doc}
    {emb : List (List ℚ)} {base : PyVal} {B : List (List Point)}
    (h : upload_docs_to_qdrant dim bs docs emb base = .ok B) :
    B.flatten = buildLoop dim base emb 0 docs := by
  unfold upload_docs_to_qdrant at h
  split_ifs at h with h1 h2
  · injection h with h3; rw [← h3, h1]; rfl
  · injection h with h3; rw [← h3, batched_flatten]

lemma upload_not_keyError {dim bs : ℕ} {docs : List Doc}
    {emb : List (List ℚ)} {base : PyVal} {msg : String} :
    upload_docs_to_qdrant dim bs docs emb base ≠ .error (.keyError msg) := by
  unfold upload_docs_to_qdrant
  split_ifs <;> simp

lemma embed_docs_ok_some {dim bs : ℕ} {provider : String → List ℚ}
    {d0 : Doc} {rest : List Doc} {r : UploadCall}
    (h : embed_docs dim bs provider (d0 :: rest) = .ok (some r)) :
    ∃ base, List.lookup "pmid" d0.metadata = some base
      ∧ r.docs = d0 :: rest
      ∧ r.embeddings = ((d0 :: rest).filterMap (fun d =>
          if pyStrip d.page_content = "" then none
          else some (pyStrip d.page_content))).map provider
      ∧ r.base_id = base
      ∧ upload_docs_to_qdrant dim bs (d0 :: rest) r.embeddings base
          = .ok r.batches := by
  rw [show embed_docs dim bs provider (d0 :: rest)
      = match embed_chunks dim provider ((d0 :: rest).filterMap (fun d =>
          if pyStrip d.page_content = "" then none
          else some (pyStrip d.page_content))) with
        | .error e => .error e
        | .ok embeddings =>
          match List.lookup "pmid" d0.metadata with
          | none => .error (.keyError missingPmidMsg)
          | some base_id =>
            match upload_docs_to_qdrant dim bs (d0 :: rest) embeddings base_id with
            | .error e => .error e
            | .ok batches => .ok (some ⟨d0 :: rest, embeddings, base_id, batches⟩)
      from rfl] at h
  rcases hec : embed_chunks dim provider ((d0 :: rest).filterMap (fun d =>
      if pyStrip d.page_content = "" then none
      else some (pyStrip d.page_content))) with e | E
  · simp only [hec] at h
    exact Except.noConfusion h
  · simp only [hec] at h
    rcases hlk : List.lookup "pmid" d0.metadata with _ | base
    · simp only [hlk] at h
      exact Except.noConfusion h
    · simp only [hlk] at h
      rcases hup : upload_docs_to_qdrant dim bs (d0 :: rest) E base with e | B
      · simp only [hup] at h
        exact Except.noConfusion h
      · simp only [hup, Except.ok.injEq, Option.some.injEq] at h
        subst h
        exact ⟨base, rfl, rfl, embed_chunks_ok hec, rfl, hup⟩

lemma docsLoop_dict (m : PyDict) :
    ∀ (chunks : List String),
      docsLoop (.dict m) chunks = .ok (chunks.map (fun c => ⟨c, m⟩)) := by
  intro chunks
  induction chunks with
  | nil => rfl
  | cons c cs ih =>
    simp only [docsLoop, document_new, ih]
    rfl

lemma filterMap_strip_eq_map {docs : List Doc}
    (h : ∀ d ∈ docs, pyStrip d.page_content ≠ "") :
    docs.filterMap (fun d =>
      if pyStrip d.page_content = "" then none
      else some (pyStrip d.page_content))
    = docs.map (fun d => pyStrip d.page_content) := by
  induction docs with
  | nil => rfl
  | cons d ds ih =>
    have hd : ¬ pyStrip d.page_content = "" := h d (by simp)
    simp only [List.filterMap_cons, List.map_cons, if_neg hd]
    rw [ih (fun x hx => h x (by simp [hx]))]

/-! ### Claim theorems -/

/-- C1: the claim says every per-item failure of a dispatched member —
XML parse failure included — is caught inside `process_xml_member` and
the archive walk continues.  The code contradicts it: on a malformed
member, `extract_from_xml` swallows the `XMLSyntaxError` and returns
`(None, {})`, `text_chunker(None, ...)` then raises a `TypeError` that
no except clause of `process_xml_member` names, and the error escapes
the per-member boundary, aborting `iterate_tar`'s walk (the second
conjunct: the walk over a bad member followed by a good one dies
without reaching the good one). -/
theorem c1_parse_failure_escapes_member_boundary :
    (∀ (dim bs : ℕ) (provider : String → List ℚ) (name : String),
      process_xml_member dim bs provider (.error .xmlSyntax) name
        = .error (.typeError splitTypeMsg))
    ∧ iterate_members 1 2 (fun _ => [(0 : ℚ)]) "/base"
        [⟨"bad.xml", .file, .error .xmlSyntax⟩,
         ⟨"good.xml", .file, .ok ⟨["text"], some "T", none, none, none, some "9"⟩⟩]
        = .error (.typeError splitTypeMsg) :=
  ⟨fun _ _ _ _ => rfl, rfl⟩

/-- C3 (spec-modelled): a member whose name is already in the processed
set gets no stream from the checkpointed gate, whatever its kind and
content. -/
theorem c3_processed_member_skipped (m : TarMember) (processed : List String)
    (h : m.name ∈ processed) :
    (safe_extract_member_ckpt m processed).stream = none := by
  unfold safe_extract_member_ckpt
  split_ifs <;> simp_all

/-- C3 witness: a regular `.xml` member whose name is in the processed
set is skipped. -/
theorem c3_processed_member_skipped_witness :
    (safe_extract_member_ckpt ⟨"test.xml", .file, .error .xmlSyntax⟩
      ["test.xml"]).stream = none :=
  c3_processed_member_skipped _ _ (by simp)

/-- C4 (spec-modelled): saving a checkpoint set and loading it back
returns exactly that set, a save overwrites any previous file
wholesale, and loading with no checkpoint file returns the empty
set. -/
theorem c4_checkpoint_roundtrip :
    (∀ (S : Finset String) (fs : CheckpointFile),
      load_checkpoint (save_checkpoint S fs) = S)
    ∧ load_checkpoint none = ∅ :=
  ⟨fun S _ => by simp [load_checkpoint, save_checkpoint], rfl⟩

/-- C5: when any vector returned for an `embed_chunks` batch has a
length different from the configured dimension, the whole call raises a
`ValueError` naming an offending index (the first one), and no vector
list is returned. -/
theorem c5_dimension_mismatch_fails_batch (dim : ℕ)
    (provider : String → List ℚ) (chunks : List String)
    (h : ∃ c ∈ chunks, (provider c).length ≠ dim) :
    ∃ i, ∃ hi : i < chunks.length,
      (provider (chunks.get ⟨i, hi⟩)).length ≠ dim
      ∧ embed_chunks dim provider chunks
          = .error (.valueError
              (sizeMsg i dim (provider (chunks.get ⟨i, hi⟩)).length))
      ∧ ∀ vs, embed_chunks dim provider chunks ≠ .ok vs := by
  have hvec : ∃ v ∈ chunks.map provider, v.length ≠ dim := by
    rcases h with ⟨c, hc, hlen⟩
    exact ⟨provider c, List.mem_map.mpr ⟨c, hc, rfl⟩, hlen⟩
  rcases checkSizes_err (chunks.map provider) 0 hvec with ⟨j, hj, hlen, heq⟩
  have hjc : j < chunks.length := by simpa using hj
  have hget : (chunks.map provider).get ⟨j, hj⟩
      = provider (chunks.get ⟨j, hjc⟩) := by
    simp [List.getElem_map]
  have heq2 := heq
  rw [Nat.zero_add, hget] at heq2
  refine ⟨j, hjc, ?_, ?_, ?_⟩
  · rw [← hget]; exact hlen
  · unfold embed_chunks
    rw [heq2]
  · intro vs hvs
    unfold embed_chunks at hvs
    rw [heq] at hvs
    exact Except.noConfusion hvs

/-- C5 witness: a batch of one chunk whose vector is empty while the
configured dimension is 1 raises the sizing `ValueError` at index 0. -/
theorem c5_dimension_mismatch_fails_batch_witness :
    ∃ i, ∃ hi : i < (["a"] : List String).length,
      ((fun _ => ([] : List ℚ)) ((["a"] : List String).get ⟨i, hi⟩)).length ≠ 1
      ∧ embed_chunks 1 (fun _ => ([] : List ℚ)) ["a"]
          = .error (.valueError (sizeMsg i 1
              ((fun _ => ([] : List ℚ))
                ((["a"] : List String).get ⟨i, hi⟩)).length))
      ∧ ∀ vs, embed_chunks 1 (fun _ => ([] : List ℚ)) ["a"] ≠ .ok vs :=
  c5_dimension_mismatch_fails_batch 1 (fun _ => ([] : List ℚ)) ["a"]
    ⟨"a", by simp, by decide⟩

/-- C6 counterexample: the claim says a parse failure is logged with
the offending name; but the except branch of `extract_from_xml` logs
the `xml_source` argument — for the pipeline's stream input a
`BytesIO` object repr — so the log emitted for the malformed member
`bad.xml` does not contain `bad.xml` at all. -/
theorem c6_stream_log_lacks_member_name :
    extract_from_xml bytesIORepr (.error .xmlSyntax) "bad.xml"
      = .ok ((none, []),
          ["XML parsing error in <_io.BytesIO object>: XMLSyntaxError"])
    ∧ strContains
        "XML parsing error in <_io.BytesIO object>: XMLSyntaxError"
        "bad.xml" = false :=
  ⟨rfl, by decide⟩

/-- C6 amended: `extract_from_xml` never raises — every parse failure
mode is caught, logged and turned into `(None, {})`, the log naming the
`xml_source` argument (for the pipeline's stream input a `BytesIO`
repr, not the member's display name) — and a successful parse yields
the joined trimmed body text together with a metadata dictionary in
which all six fields are present, missing ones bound to `None` rather
than erroring. -/
theorem c6_extract_never_raises_logs_source (src_repr : String)
    (src : XmlSource) (name : String) :
    (∃ res, extract_from_xml src_repr src name = .ok res)
    ∧ (∀ e, src = .error e →
        extract_from_xml src_repr src name
          = .ok ((none, []), [extract_log src_repr e])
        ∧ strContains (extract_log src_repr e) src_repr = true)
    ∧ (∀ d, src = .ok d →
        extract_from_xml src_repr src name
          = .ok ((some (bodyTextOf d), metadataOf d name), [])
        ∧ ∀ k ∈ ["file", "title", "journal", "year", "doi", "pmid"],
            (List.lookup k (metadataOf d name)).isSome = true) := by
  refine ⟨?_, ?_, ?_⟩
  · cases src with
    | ok d => exact ⟨_, rfl⟩
    | error e => cases e <;> exact ⟨_, rfl⟩
  · rintro e rfl
    refine ⟨by cases e <;> rfl, ?_⟩
    exact strContains_parts "XML parsing error in " src_repr
      (": " ++ parseFailClass e)
  · rintro d rfl
    refine ⟨rfl, ?_⟩
    intro k hk
    fin_cases hk <;> rfl

/-- C6 witness: an unreadable source is extracted to `(None, {})` with
one log naming the source argument. -/
theorem c6_extract_never_raises_logs_source_witness :
    extract_from_xml bytesIORepr (.error .os) "x.xml"
      = .ok ((none, []), [extract_log bytesIORepr ParseFail.os])
    ∧ strContains (extract_log bytesIORepr ParseFail.os) bytesIORepr = true :=
  (c6_extract_never_raises_logs_source bytesIORepr (.error .os) "x.xml").2.1
    ParseFail.os rfl

/-- C7 counterexample: the claim says a metadata argument that is
present (not `None`) and not a mapping makes `text_chunker` raise a
type error; but `metadata or {}` replaces every falsy value — here the
integer `0`, which is present and is not a mapping — with the empty
dictionary, and the call returns chunk documents normally. -/
theorem c7_falsy_nonmapping_metadata_no_error :
    text_chunker (.val (.str "hello")) (.val (.int 0)) = .ok [⟨"hello", []⟩]
    ∧ PyArg.val (PyVal.int 0) ≠ PyArg.val PyVal.none
    ∧ (PyArg.val (PyVal.int 0)).isDict = false :=
  ⟨rfl, by simp, rfl⟩

/-- C7 amended: empty or whitespace-only text (no words) with absent
metadata yields the empty sequence without error; a non-string text
raises the splitter's type error; a present non-mapping metadata
raises the document constructor's type error exactly when it is truthy
and at least one chunk is produced, while a falsy metadata of any type
is replaced by the empty mapping and the call succeeds. -/
theorem c7_chunker_arguments :
    (∀ s : String, wordsOf s = [] →
      text_chunker (.val (.str s)) (.val PyVal.none) = .ok [])
    ∧ (∀ t md : PyArg, (∀ s, t ≠ .val (.str s)) →
        text_chunker t md = .error (.typeError splitTypeMsg))
    ∧ (∀ (s : String) (md : PyArg), md.truthy = true →
        (∀ m, md ≠ .dict m) → split_text 1000 s ≠ [] →
        text_chunker (.val (.str s)) md = .error (.typeError docMetadataMsg))
    ∧ (∀ (s : String) (md : PyArg), md.truthy = false →
        ∃ ds, text_chunker (.val (.str s)) md = .ok ds
          ∧ ∀ d ∈ ds, d.metadata = []) := by
  refine ⟨?_, ?_, ?_, ?_⟩
  · intro s hs
    have hsp : split_text 1000 s = [] := by
      rw [split_text, hs]
      rfl
    simp only [text_chunker, split_text_py]
    rw [hsp]
    rfl
  · intro t md ht
    rcases t with v | m
    · rcases v with _ | s | n
      · rfl
      · exact absurd rfl (ht s)
      · rfl
    · rfl
  · intro s md htr hmd hchunks
    rcases hsp : split_text 1000 s with _ | ⟨c, cs⟩
    · exact absurd hsp hchunks
    · rcases md with v | m
      · show (do
          let chunks ← split_text_py 1000 (.val (.str s))
          docsLoop (if (PyArg.val v).truthy then .val v else .dict []) chunks)
          = .error (.typeError docMetadataMsg)
        simp only [split_text_py, htr, if_true]
        rw [hsp]
        rfl
      · exact absurd rfl (hmd m)
  · intro s md htr
    refine ⟨(split_text 1000 s).map (fun c => ⟨c, []⟩), ?_, ?_⟩
    · show (do
        let chunks ← split_text_py 1000 (.val (.str s))
        docsLoop (if md.truthy then md else .dict []) chunks) = _
      simp only [split_text_py, htr, Bool.false_eq_true, if_false, docsLoop_dict]
      rfl
    · intro d hd
      rcases List.mem_map.mp hd with ⟨c, _, rfl⟩
      rfl

/-- C7 witness: whitespace-only text with absent metadata gives the
empty sequence, and truthy non-mapping metadata with non-empty text
raises the type error. -/
theorem c7_chunker_arguments_witness :
    text_chunker (.val (.str "  ")) (.val PyVal.none) = .ok []
    ∧ text_chunker (.val (.str "hello")) (.val (.str "x"))
        = .error (.typeError docMetadataMsg) :=
  ⟨c7_chunker_arguments.1 "  " rfl,
   c7_chunker_arguments.2.2.1 "hello" (.val (.str "x")) rfl
     (fun m h => PyArg.noConfusion h) (by decide)⟩

/-- C8 counterexample: the claim says every link-flagged member draws a
warning naming it; but the extension filter runs first, so a symbolic
link named `link.txt` is skipped silently, with no warning at all. -/
theorem c8_link_without_xml_name_silent :
    (⟨"link.txt", .sym, .error .xmlSyntax⟩ : TarMember).kind = .sym
    ∧ safe_extract_member ⟨"link.txt", .sym, .error .xmlSyntax⟩ "/base"
        = .ok ⟨none, []⟩
    ∧ ([] : List String) ≠ [symlinkWarning "link.txt"] :=
  ⟨rfl, rfl, by simp⟩

/-- C8 amended: a link-flagged member never yields a stream; the
warning naming the member is emitted exactly when its lowercased name
ends in `.xml` — a link stopped by the extension filter is skipped
silently. -/
theorem c8_links_never_streamed (m : TarMember) (base_dir : String)
    (h : m.kind = .sym ∨ m.kind = .lnk) :
    ∃ ws, safe_extract_member m base_dir = .ok ⟨none, ws⟩
      ∧ (endsWithXmlLower m.name = true → ws = [symlinkWarning m.name])
      ∧ (endsWithXmlLower m.name = false → ws = []) := by
  have hnd : ¬ m.kind = .dir := by
    rcases h with h | h <;> simp [h]
  by_cases hx : endsWithXmlLower m.name
  · refine ⟨[symlinkWarning m.name], ?_, fun _ => rfl, fun hf => by simp [hx] at hf⟩
    unfold safe_extract_member
    rw [if_neg (by simp [hx]), if_neg hnd, if_pos h]
  · refine ⟨[], ?_, fun ht => by simp [hx] at ht, fun _ => rfl⟩
    unfold safe_extract_member
    rw [if_pos (by simp [hx])]

/-- C8 witness: a symbolic link named `link.xml` is skipped with the
warning naming it. -/
theorem c8_links_never_streamed_witness :
    ∃ ws, safe_extract_member ⟨"link.xml", .sym, .error .xmlSyntax⟩ "/base"
        = .ok ⟨none, ws⟩
      ∧ (endsWithXmlLower "link.xml" = true → ws = [symlinkWarning "link.xml"])
      ∧ (endsWithXmlLower "link.xml" = false → ws = []) :=
  c8_links_never_streamed ⟨"link.xml", .sym, .error .xmlSyntax⟩ "/base"
    (Or.inl rfl)

/-- C9 counterexample: the claim says every member resolving outside
the base directory makes `safe_extract_member` raise the unsafe-path
error; but `../evil.txt` resolves outside and is merely skipped by the
extension filter — no error is raised. -/
theorem c9_traversal_without_xml_name_skipped :
    resolvesOutside "/base" "../evil.txt" = true
    ∧ safe_extract_member ⟨"../evil.txt", .file, .error .xmlSyntax⟩ "/base"
        = .ok ⟨none, []⟩
    ∧ (safe_extract_member ⟨"../evil.txt", .file, .error .xmlSyntax⟩ "/base"
        ≠ .error (.valueError (unsafeMsg "../evil.txt"))) :=
  ⟨rfl, rfl, by
    intro h
    rw [show safe_extract_member
        ⟨"../evil.txt", .file, .error .xmlSyntax⟩ "/base"
        = .ok ⟨none, []⟩ from rfl] at h
    exact Except.noConfusion h⟩

/-- C9 amended: a member resolving outside the base directory never
yields a stream: when it passes the extension filter and is a regular
file the gate raises the distinguished unsafe-path `ValueError`, and in
every other case the member is skipped with no stream. -/
theorem c9_traversal_never_escapes (m : TarMember) (base_dir : String)
    (h : resolvesOutside base_dir m.name = true) :
    (endsWithXmlLower m.name = true → m.kind = .file →
      safe_extract_member m base_dir = .error (.valueError (unsafeMsg m.name)))
    ∧ ∀ res, safe_extract_member m base_dir = .ok res → res.stream = none := by
  constructor
  · intro hx hf
    unfold safe_extract_member
    rw [if_neg (by simp [hx]), if_neg (by simp [hf]), if_neg (by simp [hf]),
      if_pos ⟨h, hf⟩]
  · intro res hres
    by_cases hx : endsWithXmlLower m.name
    · rcases hk : m.kind with _ | _ | _ | _ | _
      · rw [show safe_extract_member m base_dir
            = .error (.valueError (unsafeMsg m.name)) by
              unfold safe_extract_member
              rw [if_neg (by simp [hx]), if_neg (by simp [hk]),
                if_neg (by simp [hk]), if_pos ⟨h, hk⟩]] at hres
        exact Except.noConfusion hres
      · rw [show safe_extract_member m base_dir = .ok ⟨none, []⟩ by
          unfold safe_extract_member
          rw [if_neg (by simp [hx]), if_pos hk]] at hres
        injection hres with h2
        rw [← h2]
      · rw [show safe_extract_member m base_dir
            = .ok ⟨none, [symlinkWarning m.name]⟩ by
          unfold safe_extract_member
          rw [if_neg (by simp [hx]), if_neg (by simp [hk]),
            if_pos (Or.inl hk)]] at hres
        injection hres with h2
        rw [← h2]
      · rw [show safe_extract_member m base_dir
            = .ok ⟨none, [symlinkWarning m.name]⟩ by
          unfold safe_extract_member
          rw [if_neg (by simp [hx]), if_neg (by simp [hk]),
            if_pos (Or.inr hk)]] at hres
        injection hres with h2
        rw [← h2]
      · rw [show safe_extract_member m base_dir = .ok ⟨tarExtractfile m, []⟩ by
          unfold safe_extract_member
          rw [if_neg (by simp [hx]), if_neg (by simp [hk]),
            if_neg (by simp [hk]), if_neg (by simp [hk])]] at hres
        injection hres with h2
        rw [← h2]
        simp [tarExtractfile, hk]
    · rw [show safe_extract_member m base_dir = .ok ⟨none, []⟩ by
        unfold safe_extract_member
        rw [if_pos (by simp [hx])]] at hres
      injection hres with h2
      rw [← h2]

/-- C9 witness: a regular file named `../evil.xml` resolves outside
`/base` and draws the unsafe-path error. -/
theorem c9_traversal_never_escapes_witness :
    safe_extract_member ⟨"../evil.xml", .file, .error .xmlSyntax⟩ "/base"
      = .error (.valueError (unsafeMsg "../evil.xml")) :=
  (c9_traversal_never_escapes ⟨"../evil.xml", .file, .error .xmlSyntax⟩
    "/base" (by decide)).1 (by decide) rfl

/-- Unfolding equation for `embed_docs` on a non-empty document list. -/
lemma embed_docs_cons (dim bs : ℕ) (provider : String → List ℚ)
    (d0 : Doc) (rest : List Doc) :
    embed_docs dim bs provider (d0 :: rest)
    = match embed_chunks dim provider ((d0 :: rest).filterMap (fun d =>
        if pyStrip d.page_content = "" then none
        else some (pyStrip d.page_content))) with
      | .error e => .error e
      | .ok embeddings =>
        match List.lookup "pmid" d0.metadata with
        | none => .error (.keyError missingPmidMsg)
        | some base_id =>
          match upload_docs_to_qdrant dim bs (d0 :: rest) embeddings base_id with
          | .error e => .error e
          | .ok batches =>
            .ok (some ⟨d0 :: rest, embeddings, base_id, batches⟩) := rfl

/-- C2 counterexample: the claim says alignment holds for every input,
including lists with chunks whose content is empty after trimming; but
`embed_docs` strips and filters the chunk texts before embedding while
uploading the unfiltered document list, so with a whitespace-only chunk
at position 0 the single computed vector — the embedding `[5]` of
`"hello"`, the chunk at position 1 — is attached to the point built for
position 0 (whose own stripped text embeds to `[0]`), and two chunks
get one vector, the second chunk being dropped by an `IndexError`. -/
theorem c2_empty_chunk_misaligns_vectors :
    embed_docs 1 2 (fun s => [(pyLen s : ℚ)])
      [⟨"   ", [("pmid", .str "1"), ("title", .str "T")]⟩,
       ⟨"hello", [("pmid", .str "1"), ("title", .str "T")]⟩]
    = .ok (some
        ⟨[⟨"   ", [("pmid", .str "1"), ("title", .str "T")]⟩,
          ⟨"hello", [("pmid", .str "1"), ("title", .str "T")]⟩],
         [[(5 : ℚ)]],
         .str "1",
         [[⟨"1_chunk_0", [(5 : ℚ)],
            [("pmid", .str "1"), ("title", .str "T"),
             ("chunk_index", .int 0), ("text", .str "   ")]⟩]]⟩)
    ∧ [(pyLen (pyStrip "   ") : ℚ)] ≠ [(5 : ℚ)]
    ∧ [(pyLen "hello" : ℚ)] = [(5 : ℚ)] :=
  ⟨rfl, by decide, rfl⟩

/-- C2 amended: when every chunk content is non-empty after trimming,
`embed_docs` embeds exactly one vector per chunk, positionally aligned
— the vector list is the per-chunk embedding of the stripped chunk
texts in order — and every upload point built carries the vector
computed from the text of the chunk at its own index. -/
theorem c2_alignment_for_nonempty_chunks (dim bs : ℕ)
    (provider : String → List ℚ) (docs : List Doc)
    (h : ∀ d ∈ docs, pyStrip d.page_content ≠ "") :
    ∀ r, embed_docs dim bs provider docs = .ok (some r) →
      r.docs = docs
      ∧ r.embeddings = docs.map (fun d => provider (pyStrip d.page_content))
      ∧ r.embeddings.length = docs.length
      ∧ ∀ p ∈ r.points, ∃ i, ∃ hi : i < docs.length,
          List.lookup "chunk_index" p.payload = some (.int i)
          ∧ p.vector = provider (pyStrip (docs.get ⟨i, hi⟩).page_content)
          ∧ List.lookup "text" p.payload
              = some (.str (docs.get ⟨i, hi⟩).page_content) := by
  intro r hr
  cases docs with
  | nil => exact absurd hr (by simp [embed_docs])
  | cons d0 rest =>
    rcases embed_docs_ok_some hr with ⟨base, hlk, hdocs, hemb, hbase, hup⟩
    rw [filterMap_strip_eq_map h] at hemb
    have hemb2 : r.embeddings
        = (d0 :: rest).map (fun d => provider (pyStrip d.page_content)) := by
      rw [hemb, List.map_map]
      rfl
    refine ⟨hdocs, hemb2, by rw [hemb2]; simp, ?_⟩
    intro p hp
    have hfl : r.points = buildLoop dim base r.embeddings 0 (d0 :: rest) :=
      upload_ok_flatten hup
    rw [hfl] at hp
    rcases buildLoop_mem hp with ⟨j, hj, e, hget, hbp⟩
    rw [Nat.zero_add] at hget hbp
    rcases build_point_ok hbp with ⟨hv, hpl, _⟩
    refine ⟨j, hj, ?_, ?_, ?_⟩
    · rw [hpl]
      unfold point_payload
      rw [lookup_dictSet_ne _ _ (by decide), lookup_dictSet_self]
    · rw [hemb2, List.get?_map, List.get?_eq_get hj] at hget
      injection hget with hget2
      rw [hv, ← hget2]
    · rw [hpl]
      unfold point_payload
      rw [lookup_dictSet_self]

/-- C2 witness: two non-empty chunks get two positionally aligned
vectors. -/
theorem c2_alignment_for_nonempty_chunks_witness :
    ((⟨[⟨"a", [("pmid", .str "1"), ("title", .str "T")]⟩,
        ⟨"b", [("pmid", .str "1"), ("title", .str "T")]⟩],
       [[(1 : ℚ)], [(1 : ℚ)]],
       .str "1",
       [[⟨"1_chunk_0", [(1 : ℚ)],
          [("pmid", .str "1"), ("title", .str "T"),
           ("chunk_index", .int 0), ("text", .str "a")]⟩,
         ⟨"1_chunk_1", [(1 : ℚ)],
          [("pmid", .str "1"), ("title", .str "T"),
           ("chunk_index", .int 1), ("text", .str "b")]⟩]]⟩ :
        UploadCall)).embeddings
    = [[(1 : ℚ)], [(1 : ℚ)]] :=
  ((c2_alignment_for_nonempty_chunks 1 2 (fun s => [(pyLen s : ℚ)])
      [⟨"a", [("pmid", .str "1"), ("title", .str "T")]⟩,
       ⟨"b", [("pmid", .str "1"), ("title", .str "T")]⟩]
      (by decide) _ rfl).2.1).trans rfl

/-- C10: `embed_docs` raises its missing-pmid `KeyError` exactly when
the `pmid` key is entirely absent from the first document's metadata
(assuming the embedding provider returns well-sized vectors, so the
size check passes first); when the key is present but bound to `None`
the call proceeds and every uploaded point id derives from the shared
`"None"` base — `"None_chunk_" ++ i` — so pmid-less documents collide
on equal chunk indices; and `extract_from_xml` always emits the `pmid`
key, bound to `None` when the element is missing. -/
theorem c10_missing_pmid_key_vs_none_value (dim bs : ℕ)
    (provider : String → List ℚ) (d0 : Doc) (rest : List Doc)
    (h1 : ∀ s, (provider s).length = dim) :
    (embed_docs dim bs provider (d0 :: rest)
        = .error (.keyError missingPmidMsg)
      ↔ List.lookup "pmid" d0.metadata = none)
    ∧ (∀ r, embed_docs dim bs provider (d0 :: rest) = .ok (some r) →
        List.lookup "pmid" d0.metadata = some PyVal.none →
        r.base_id = PyVal.none
        ∧ ∀ p ∈ r.points, ∃ i : ℕ, p.id = "None_chunk_" ++ toString i)
    ∧ ∀ (d : ParsedXml) (name : String),
        List.lookup "pmid" (metadataOf d name)
          = some (d.pmid.elim PyVal.none PyVal.str) := by
  have hec := embed_chunks_of_dims
    ((d0 :: rest).filterMap (fun d =>
      if pyStrip d.page_content = "" then none
      else some (pyStrip d.page_content))) h1
  refine ⟨⟨?_, ?_⟩, ?_, ?_⟩
  · intro herr
    by_contra hlk
    rcases Option.ne_none_iff_exists.mp hlk with ⟨base, hbase⟩
    rw [embed_docs_cons] at herr
    simp only [hec, ← hbase] at herr
    rcases hup : upload_docs_to_qdrant dim bs (d0 :: rest)
        (((d0 :: rest).filterMap (fun d =>
          if pyStrip d.page_content = "" then none
          else some (pyStrip d.page_content))).map provider) base with e | B
    · simp only [hup] at herr
      injection herr with he
      rw [he] at hup
      exact upload_not_keyError hup
    · simp only [hup] at herr
      exact Except.noConfusion herr
  · intro hlk
    rw [embed_docs_cons]
    simp only [hec, hlk]
  · intro r hr hval
    rcases embed_docs_ok_some hr with ⟨base, hlk, _, _, hbase, hup⟩
    rw [hlk] at hval
    injection hval with hv2
    subst hv2
    refine ⟨hbase, ?_⟩
    intro p hp
    have hfl : r.points = buildLoop dim PyVal.none r.embeddings 0 (d0 :: rest) := by
      rw [← hbase] at hup ⊢
      exact upload_ok_flatten hup
    rw [hfl] at hp
    rcases buildLoop_mem hp with ⟨j, _, e, _, hbp⟩
    rcases build_point_ok hbp with ⟨_, _, hid⟩
    exact ⟨0 + j, by rw [hid]; rfl⟩
  · intro d name
    rfl

/-- C10 witness: a single document whose metadata binds `pmid` to
`None` does not raise the missing-pmid `KeyError` (the key is
present). -/
theorem c10_missing_pmid_key_vs_none_value_witness :
    embed_docs 1 1 (fun _ => [(0 : ℚ)])
      [⟨"hello", [("pmid", PyVal.none), ("title", PyVal.str "T")]⟩]
      = .error (.keyError missingPmidMsg)
    ↔ List.lookup "pmid"
        ([("pmid", PyVal.none), ("title", PyVal.str "T")] : PyDict) = none :=
  (c10_missing_pmid_key_vs_none_value 1 1 (fun _ => [(0 : ℚ)])
    ⟨"hello", [("pmid", PyVal.none), ("title", PyVal.str "T")]⟩ []
    (fun _ => rfl)).1

end HealthLLM
